import Mathlib

/-!
Verification development for the gtm-control-layer deal-approval core.

The definitions below are a shallow embedding of the Python source:
  app/intake/models.py   (deal data model)
  app/rules/config.py    (threshold / rules configuration)
  app/rules/engine.py    (rule evaluation engine)
  app/routing/engine.py  (routing engine)
  app/metrics/simulation.py (simulation driver core loop)
Python floats that carry exact monetary / percentage values are modelled as
rationals, Python ints as Int, Python dicts as association lists with
first-match lookup (dict keys are unique in the source's configs).
-/

/-! ## Data model (app/intake/models.py) -/

inductive DealType
  | New
  | Renewal
  | Expansion
  | Pilot
deriving DecidableEq, Repr

inductive CustomerSegment
  | Enterprise
  | MidMarket
  | SMB
  | Strategic
deriving DecidableEq, Repr

/-- String value of a `CustomerSegment`, as in the Python `StrEnum`. -/
def CustomerSegment.value : CustomerSegment → String
  | .Enterprise => "Enterprise"
  | .MidMarket => "Mid-Market"
  | .SMB => "SMB"
  | .Strategic => "Strategic"

inductive Region
  | NA
  | EU
  | UK
  | APAC
  | LATAM
  | MEA
deriving DecidableEq, Repr

/-- Immutable deal object produced after successful validation
(`ValidatedDeal` in app/intake/models.py).  The `created_at` timestamp is
modelled as an opaque string; it is never read by the evaluation core. -/
structure ValidatedDeal where
  id : String
  created_at : String
  deal_type : DealType
  customer_segment : CustomerSegment
  annual_contract_value : ℚ
  discount_percentage : ℚ
  payment_terms_days : Int
  region : Region
  custom_security_clause : Bool
  clause_text : Option String
deriving DecidableEq, Repr

/-! ## Configuration (app/rules/config.py) -/

/-- Threshold values for rule evaluation (`ThresholdConfig`). -/
structure ThresholdConfig where
  discount_threshold : ℚ := 20
  acv_exec_threshold : ℚ := 150000
  payment_terms_limit : Int := 45
  eu_requires_legal : Bool := true
deriving DecidableEq, Repr

/-- A segment-override entry.  Pydantic tracks which fields were explicitly
set on a `ThresholdConfig` instance, and `model_dump(exclude_unset=True)`
emits only those; an override entry is therefore modelled as a record of
optional fields (`none` = unset). -/
structure ThresholdOverride where
  discount_threshold : Option ℚ := none
  acv_exec_threshold : Option ℚ := none
  payment_terms_limit : Option Int := none
  eu_requires_legal : Option Bool := none
deriving DecidableEq, Repr

/-- Score boundaries for priority tiers (`PriorityCutoffs`). -/
structure PriorityCutoffs where
  P1 : Int := 5
  P2 : Int := 3
  P3 : Int := 1
deriving DecidableEq, Repr

/-- Top-level config loaded from rules.json (`RulesConfig`), with the
source's default field values. -/
structure RulesConfig where
  defaults : ThresholdConfig := {}
  segment_overrides : List (String × ThresholdOverride) := []
  escalation_order : List String := ["Finance", "Legal", "Security", "Exec"]
  rule_weights : List (String × Int) :=
    [("DISCOUNT_THRESHOLD", 2), ("ACV_EXEC_THRESHOLD", 3), ("EU_LEGAL_REVIEW", 2),
     ("PAYMENT_TERMS_LIMIT", 1), ("CUSTOM_SECURITY_CLAUSE", 3)]
  priority_cutoffs : PriorityCutoffs := {}
deriving DecidableEq, Repr

/-- Merged thresholds: defaults overridden by segment-specific values
(`RulesConfig.resolve_thresholds`).  `base.update(override)` followed by
`ThresholdConfig(**base)` replaces exactly the explicitly-set override
fields. -/
def RulesConfig.resolve_thresholds (c : RulesConfig) (segment : String) : ThresholdConfig :=
  match List.lookup segment c.segment_overrides with
  | none => c.defaults
  | some ov =>
      { discount_threshold := ov.discount_threshold.getD c.defaults.discount_threshold
        acv_exec_threshold := ov.acv_exec_threshold.getD c.defaults.acv_exec_threshold
        payment_terms_limit := ov.payment_terms_limit.getD c.defaults.payment_terms_limit
        eu_requires_legal := ov.eu_requires_legal.getD c.defaults.eu_requires_legal }

/-! ## Rule evaluation engine (app/rules/engine.py) -/

/-- Result of a single rule evaluation (`RuleTrigger`). -/
structure RuleTrigger where
  rule_id : String
  triggered : Bool
  owner : String
  reason : String
  weight : Int := 0
deriving DecidableEq, Repr

/-- Aggregated output from evaluating all rules against a deal
(`EvaluationResult`). -/
structure EvaluationResult where
  deal_id : String
  triggers : List RuleTrigger
  total_weight : Int
  priority : String
deriving DecidableEq, Repr

/-- Discount rule (`_eval_discount`).  The interpolated numeric figures of
the triggered reason string are elided. -/
def _eval_discount (deal : ValidatedDeal) (thresholds : ThresholdConfig)
    (weight : Int) : RuleTrigger :=
  let triggered := decide (deal.discount_percentage > thresholds.discount_threshold)
  { rule_id := "DISCOUNT_THRESHOLD"
    triggered := triggered
    owner := "Finance"
    reason := if triggered then "Discount exceeds threshold" else "Discount within threshold"
    weight := if triggered then weight else 0 }

/-- ACV rule (`_eval_acv`). -/
def _eval_acv (deal : ValidatedDeal) (thresholds : ThresholdConfig)
    (weight : Int) : RuleTrigger :=
  let triggered := decide (deal.annual_contract_value > thresholds.acv_exec_threshold)
  { rule_id := "ACV_EXEC_THRESHOLD"
    triggered := triggered
    owner := "Exec"
    reason := if triggered then "ACV exceeds threshold" else "ACV within threshold"
    weight := if triggered then weight else 0 }

/-- EU legal review rule (`_eval_eu_legal`). -/
def _eval_eu_legal (deal : ValidatedDeal) (thresholds : ThresholdConfig)
    (weight : Int) : RuleTrigger :=
  let triggered := decide (deal.region = Region.EU) && thresholds.eu_requires_legal
  { rule_id := "EU_LEGAL_REVIEW"
    triggered := triggered
    owner := "Legal"
    reason := if triggered then "EU region requires legal review"
              else "Region does not require legal review"
    weight := if triggered then weight else 0 }

/-- Payment terms rule (`_eval_payment_terms`). -/
def _eval_payment_terms (deal : ValidatedDeal) (thresholds : ThresholdConfig)
    (weight : Int) : RuleTrigger :=
  let triggered := decide (deal.payment_terms_days > thresholds.payment_terms_limit)
  { rule_id := "PAYMENT_TERMS_LIMIT"
    triggered := triggered
    owner := "Finance"
    reason := if triggered then "Payment terms exceed limit" else "Payment terms within limit"
    weight := if triggered then weight else 0 }

/-- Custom security clause rule (`_eval_security_clause`). -/
def _eval_security_clause (deal : ValidatedDeal) (_thresholds : ThresholdConfig)
    (weight : Int) : RuleTrigger :=
  let triggered := deal.custom_security_clause
  { rule_id := "CUSTOM_SECURITY_CLAUSE"
    triggered := triggered
    owner := "Security"
    reason := if triggered then "Custom security clause requires review"
              else "No custom security clause"
    weight := if triggered then weight else 0 }

/-- Determine priority tier from total triggered weight using config cutoffs
(`_compute_priority`). -/
def _compute_priority (total_weight : Int) (config : RulesConfig) : String :=
  if total_weight ≥ config.priority_cutoffs.P1 then "P1"
  else if total_weight ≥ config.priority_cutoffs.P2 then "P2"
  else if total_weight ≥ config.priority_cutoffs.P3 then "P3"
  else "None"

/-- Python `dict.get(key, 0)` on the rule-weight map. -/
def weightFor (config : RulesConfig) (rule_id : String) : Int :=
  (List.lookup rule_id config.rule_weights).getD 0

/-- Evaluate a deal against all rules (`evaluate_deal`).  The source walks
`_RULE_EVALUATORS` in a fixed order, looking each rule's weight up by its
rule id with default 0. -/
def evaluate_deal (deal : ValidatedDeal) (config : RulesConfig) : EvaluationResult :=
  let thresholds := config.resolve_thresholds deal.customer_segment.value
  let triggers :=
    [_eval_discount deal thresholds (weightFor config "DISCOUNT_THRESHOLD"),
     _eval_acv deal thresholds (weightFor config "ACV_EXEC_THRESHOLD"),
     _eval_eu_legal deal thresholds (weightFor config "EU_LEGAL_REVIEW"),
     _eval_payment_terms deal thresholds (weightFor config "PAYMENT_TERMS_LIMIT"),
     _eval_security_clause deal thresholds (weightFor config "CUSTOM_SECURITY_CLAUSE")]
  let total_weight := (triggers.map (fun t => t.weight)).sum
  { deal_id := deal.id
    triggers := triggers
    total_weight := total_weight
    priority := _compute_priority total_weight config }

/-! ## Routing engine (app/routing/engine.py) -/

/-- Final decision object produced by the routing engine (`RoutingDecision`). -/
structure RoutingDecision where
  deal_id : String
  approval_status : String
  escalation_path : List String
  rule_triggers : List RuleTrigger
  auto_approved : Bool
  priority : String
  total_weight : Int
deriving DecidableEq, Repr

/-- Seen-set deduplication loop of `route_deal`: walk the owners of the
fired triggers, keeping the first occurrence of each owner. -/
def uniqueOwnersAux (seen : List String) : List String → List String
  | [] => []
  | o :: os => if o ∈ seen then uniqueOwnersAux seen os
               else o :: uniqueOwnersAux (o :: seen) os

/-- The dict comprehension `{team: idx for idx, team in enumerate(order)}`:
each iteration binds the team name to its index, a later duplicate
overwriting an earlier binding. -/
def orderMapAux (i : Nat) (m : String → Option Nat) : List String → (String → Option Nat)
  | [] => m
  | team :: rest => orderMapAux (i + 1) (fun s => if s = team then some i else m s) rest

/-- The routing engine's `order_map` as a lookup function. -/
def orderMap (order : List String) : String → Option Nat :=
  orderMapAux 0 (fun _ => none) order

/-- Sort key of `route_deal`: `order_map.get(t, len(config.escalation_order))`. -/
def routeSortKey (order : List String) (t : String) : Nat :=
  (orderMap order t).getD order.length

/-- Model of Python's stable `sorted(l, key=k)` for a natural-number key:
insertion sort with the non-strict key comparison, which is stable. -/
def pySorted (key : String → Nat) (l : List String) : List String :=
  List.insertionSort (fun a b => key a ≤ key b) l

/-- Convert evaluation triggers into a routing decision (`route_deal`). -/
def route_deal (evaluation : EvaluationResult) (config : RulesConfig) : RoutingDecision :=
  let fired := evaluation.triggers.filter (fun t => t.triggered)
  if fired.isEmpty then
    { deal_id := evaluation.deal_id
      approval_status := "Auto-Approved"
      escalation_path := []
      rule_triggers := evaluation.triggers
      auto_approved := true
      priority := evaluation.priority
      total_weight := evaluation.total_weight }
  else
    let unique_owners := uniqueOwnersAux [] (fired.map (fun t => t.owner))
    let escalation_path := pySorted (routeSortKey config.escalation_order) unique_owners
    { deal_id := evaluation.deal_id
      approval_status := "Escalated"
      escalation_path := escalation_path
      rule_triggers := evaluation.triggers
      auto_approved := false
      priority := evaluation.priority
      total_weight := evaluation.total_weight }

/-! ## Simulation driver core (app/metrics/simulation.py) -/

/-- The disabled-rule correction of `_compute_sim_metrics` (lines 70-79):
zero out every trigger whose rule id is disabled, recompute the total
weight as the new sum, and recompute the priority from that total with the
simulated config's cutoffs.  The source mutates the evaluation in place;
the embedding returns the corrected value. -/
def zeroDisabled (ev : EvaluationResult) (config : RulesConfig)
    (disabled : List String) : EvaluationResult :=
  let triggers := ev.triggers.map
    (fun t => if t.rule_id ∈ disabled then { t with triggered := false, weight := 0 } else t)
  let total := (triggers.map (fun t => t.weight)).sum
  { ev with
      triggers := triggers
      total_weight := total
      priority := _compute_priority total config }

/-- Evaluation-and-routing step of the simulated pass for one deal. -/
def simDecision (deal : ValidatedDeal) (config : RulesConfig)
    (disabled : List String) : RoutingDecision :=
  route_deal (zeroDisabled (evaluate_deal deal config) config disabled) config

/-- Number of escalated deals counted by `_compute_sim_metrics` over a
batch (the persistence layer's row reconstruction is elided: the batch is
taken as a list of validated deals). -/
def simEscalatedCount (deals : List ValidatedDeal) (config : RulesConfig)
    (disabled : List String) : Nat :=
  deals.countP (fun d => !(simDecision d config disabled).auto_approved)

/-! ## Specification-side descriptions

These definitions follow the spec's wording for the escalation-path
construction and are compared against the translated code above. -/

/-- Index of the first occurrence of `t` in a list, if present. -/
def firstIdx? : List String → String → Option Nat
  | [], _ => none
  | x :: xs, t => if x = t then some 0 else (firstIdx? xs t).map (· + 1)

/-- Index of the last occurrence of `t` in a list, if present. -/
def lastIdx? : List String → String → Option Nat
  | [], _ => none
  | x :: xs, t =>
      match lastIdx? xs t with
      | some j => some (j + 1)
      | none => if x = t then some 0 else none

/-- Sort key as the claim words it: the owner's index in
`escalation_order` (index of its first occurrence), with owners absent
from the order keyed at the order's length. -/
def specFirstKey (order : List String) (t : String) : Nat :=
  (firstIdx? order t).getD order.length

/-- Amended sort key: the index of the owner's last occurrence in
`escalation_order` (what the enumerate-built dict actually stores), with
absent owners keyed at the order's length. -/
def specLastKey (order : List String) (t : String) : Nat :=
  (lastIdx? order t).getD order.length

/-- Deduplication preserving first-occurrence order: keep each head and
drop its later duplicates. -/
def firstOccurrenceDedup : List String → List String
  | [] => []
  | x :: xs => x :: firstOccurrenceDedup (xs.filter (fun y => decide (y ≠ x)))
termination_by l => l.length
decreasing_by
  simp only [List.length_cons]
  exact Nat.lt_succ_of_le (List.length_filter_le _ _)

/-- Concatenation of the key fibers of `l` for the keys listed in `is`,
keeping each fiber in the original order. -/
def bucketsOn (key : String → Nat) : List Nat → List String → List String
  | [], _ => []
  | i :: rest, l => l.filter (fun x => decide (key x = i)) ++ bucketsOn key rest l

/-- Stable sort by a key bounded by `bound`: concatenate the key fibers
for keys `0, 1, ..., bound` in increasing order.  A stable sort is exactly
the sort that keeps every key fiber in input order. -/
def stableSortByKey (key : String → Nat) (bound : Nat) (l : List String) : List String :=
  bucketsOn key (List.range (bound + 1)) l

/-! ## Bridging lemmas -/

/-- The enumerate-built dict maps each name to the index of its last
occurrence. -/
theorem orderMapAux_eq (l : List String) :
    ∀ (i : Nat) (m : String → Option Nat) (s : String),
      orderMapAux i m l s =
        match lastIdx? l s with
        | some j => some (i + j)
        | none => m s := by
  induction l with
  | nil => intro i m s; rfl
  | cons x xs ih =>
    intro i m s
    show orderMapAux (i + 1) (fun t => if t = x then some i else m t) xs s = _
    rw [ih]
    cases h : lastIdx? xs s with
    | some j =>
      simp only [lastIdx?, h]
      congr 1
      omega
    | none =>
      by_cases hsx : s = x
      · subst hsx
        simp [lastIdx?, h]
      · simp [lastIdx?, h, hsx, Ne.symm hsx]

/-- The routing sort key equals the last-occurrence-index key. -/
theorem routeSortKey_eq_specLastKey (order : List String) (t : String) :
    routeSortKey order t = specLastKey order t := by
  unfold routeSortKey orderMap specLastKey
  rw [orderMapAux_eq]
  cases h : lastIdx? order t <;> simp

/-- Inserting an element that is below the whole list places it in front. -/
theorem orderedInsert_of_forall_le {key : String → Nat} {x : String} {B : List String}
    (h : ∀ y ∈ B, key x ≤ key y) :
    B.orderedInsert (fun a b => key a ≤ key b) x = x :: B := by
  cases B with
  | nil => rfl
  | cons y ys =>
    simp only [List.orderedInsert]
    rw [if_pos (h y (List.mem_cons_self y ys))]

/-- Inserting an element that is strictly above a prefix skips the prefix. -/
theorem orderedInsert_append_of_forall_not {key : String → Nat} {x : String}
    (A B : List String) (h : ∀ y ∈ A, ¬ key x ≤ key y) :
    (A ++ B).orderedInsert (fun a b => key a ≤ key b) x
      = A ++ B.orderedInsert (fun a b => key a ≤ key b) x := by
  induction A with
  | nil => rfl
  | cons a as ih =>
    simp only [List.cons_append, List.orderedInsert]
    rw [if_neg (h a (List.mem_cons_self a as))]
    exact congrArg (List.cons a) (ih (fun y hy => h y (List.mem_cons_of_mem a hy)))

/-- Every member of a fiber concatenation has its key among the listed keys. -/
theorem key_mem_of_mem_bucketsOn {key : String → Nat} {y : String} :
    ∀ {is : List Nat} {l : List String}, y ∈ bucketsOn key is l → key y ∈ is := by
  intro is
  induction is with
  | nil => intro l h; exact absurd h (List.not_mem_nil y)
  | cons i rest ih =>
    intro l h
    rcases List.mem_append.mp h with h1 | h2
    · have := (List.mem_filter.mp h1).2
      simp only [decide_eq_true_eq] at this
      exact this ▸ List.mem_cons_self i rest
    · exact List.mem_cons_of_mem i (ih h2)

/-- A new element whose key is not listed does not change the fibers. -/
theorem bucketsOn_cons_of_not_mem {key : String → Nat} {x : String} {l : List String} :
    ∀ {is : List Nat}, key x ∉ is → bucketsOn key is (x :: l) = bucketsOn key is l := by
  intro is
  induction is with
  | nil => intro _; rfl
  | cons i rest ih =>
    intro h
    have hne : key x ≠ i := fun he => h (he ▸ List.mem_cons_self i rest)
    simp only [bucketsOn, List.filter_cons, decide_eq_true_eq]
    rw [if_neg hne, ih (fun hm => h (List.mem_cons_of_mem i hm))]

/-- Fiber concatenation of the empty list is empty. -/
theorem bucketsOn_nil {key : String → Nat} : ∀ (is : List Nat), bucketsOn key is [] = [] := by
  intro is
  induction is with
  | nil => rfl
  | cons i rest ih => simp [bucketsOn, ih]

/-- Ordered insertion into a fiber concatenation prepends the element to
its own fiber. -/
theorem orderedInsert_bucketsOn {key : String → Nat} {x : String} (l : List String) :
    ∀ (is : List Nat), List.Sorted (· < ·) is → key x ∈ is →
      (bucketsOn key is l).orderedInsert (fun a b => key a ≤ key b) x
        = bucketsOn key is (x :: l) := by
  intro is
  induction is with
  | nil => intro _ h; exact absurd h (List.not_mem_nil _)
  | cons i rest ih =>
    intro hsort hmem
    have hrest : List.Sorted (· < ·) rest := hsort.of_cons
    have hlt : ∀ j ∈ rest, i < j := fun j hj => List.rel_of_sorted_cons hsort j hj
    by_cases hk : key x = i
    · have hnot : key x ∉ rest := fun hm => absurd (hk ▸ hlt _ hm) (lt_irrefl i)
      have hall : ∀ y ∈ bucketsOn key (i :: rest) l, key x ≤ key y := by
        intro y hy
        rcases List.mem_append.mp hy with h1 | h2
        · have := (List.mem_filter.mp h1).2
          simp only [decide_eq_true_eq] at this
          omega
        · have := hlt _ (key_mem_of_mem_bucketsOn h2)
          omega
      rw [orderedInsert_of_forall_le hall]
      show x :: bucketsOn key (i :: rest) l = bucketsOn key (i :: rest) (x :: l)
      simp only [bucketsOn, List.filter_cons, decide_eq_true_eq]
      rw [if_pos hk, bucketsOn_cons_of_not_mem hnot]
      rfl
    · have hmem' : key x ∈ rest := (List.mem_cons.mp hmem).resolve_left hk
      have hxgt : i < key x := hlt _ hmem'
      have hA : ∀ y ∈ l.filter (fun z => decide (key z = i)), ¬ key x ≤ key y := by
        intro y hy
        have := (List.mem_filter.mp hy).2
        simp only [decide_eq_true_eq] at this
        omega
      show (l.filter (fun z => decide (key z = i)) ++ bucketsOn key rest l).orderedInsert
            (fun a b => key a ≤ key b) x = _
      rw [orderedInsert_append_of_forall_not _ _ hA, ih hrest hmem']
      simp only [bucketsOn, List.filter_cons, decide_eq_true_eq]
      rw [if_neg hk]

/-- Insertion sort by a key equals the fiber concatenation over any
strictly increasing key list covering all keys: both are the unique
stable sort. -/
theorem insertionSort_eq_bucketsOn {key : String → Nat} {is : List Nat}
    (hsort : List.Sorted (· < ·) is) :
    ∀ (l : List String), (∀ y ∈ l, key y ∈ is) →
      List.insertionSort (fun a b => key a ≤ key b) l = bucketsOn key is l := by
  intro l
  induction l with
  | nil => intro _; exact (bucketsOn_nil is).symm
  | cons x xs ih =>
    intro h
    show (List.insertionSort (fun a b => key a ≤ key b) xs).orderedInsert
          (fun a b => key a ≤ key b) x = _
    rw [ih (fun y hy => h y (List.mem_cons_of_mem x hy))]
    exact orderedInsert_bucketsOn xs is hsort (h x (List.mem_cons_self x xs))

/-- The model of Python's stable sort equals the fiber description when
the key is bounded. -/
theorem pySorted_eq_stableSortByKey {key : String → Nat} {bound : Nat} {l : List String}
    (h : ∀ y ∈ l, key y ≤ bound) :
    pySorted key l = stableSortByKey key bound l :=
  insertionSort_eq_bucketsOn (List.sorted_lt_range (bound + 1)) l
    (fun y hy => List.mem_range.mpr (Nat.lt_succ_of_le (h y hy)))

/-- The seen-set loop computes first-occurrence deduplication of whatever
was not yet seen. -/
theorem uniqueOwnersAux_eq (l : List String) :
    ∀ (seen : List String),
      uniqueOwnersAux seen l = firstOccurrenceDedup (l.filter (fun y => decide (y ∉ seen))) := by
  induction l with
  | nil => intro seen; simp [uniqueOwnersAux, firstOccurrenceDedup]
  | cons x xs ih =>
    intro seen
    by_cases hx : x ∈ seen
    · rw [show uniqueOwnersAux seen (x :: xs) = uniqueOwnersAux seen xs by
        simp [uniqueOwnersAux, hx]]
      rw [ih seen]
      congr 1
      simp [List.filter_cons, hx]
    · rw [show uniqueOwnersAux seen (x :: xs) = x :: uniqueOwnersAux (x :: seen) xs by
        simp [uniqueOwnersAux, hx]]
      rw [ih (x :: seen)]
      have hfil : (x :: xs).filter (fun y => decide (y ∉ seen))
          = x :: xs.filter (fun y => decide (y ∉ seen)) := by
        simp [List.filter_cons, hx]
      rw [hfil, firstOccurrenceDedup, List.filter_filter]
      congr 2
      apply List.filter_congr
      intro a _
      by_cases h1 : a = x <;> by_cases h2 : a ∈ seen <;> simp [h1, h2]

/-- The routing engine's owner collection is first-occurrence
deduplication. -/
theorem uniqueOwners_eq_dedup (l : List String) :
    uniqueOwnersAux [] l = firstOccurrenceDedup l := by
  rw [uniqueOwnersAux_eq l []]
  congr 1
  simp

/-- The seen-set loop yields a duplicate-free list of unseen members of
its input. -/
theorem uniqueOwnersAux_nodup_mem (l : List String) :
    ∀ (seen : List String),
      (uniqueOwnersAux seen l).Nodup
        ∧ ∀ x ∈ uniqueOwnersAux seen l, x ∈ l ∧ x ∉ seen := by
  induction l with
  | nil => intro seen; exact ⟨List.nodup_nil, by intro x hx; exact absurd hx (List.not_mem_nil x)⟩
  | cons o os ih =>
    intro seen
    by_cases ho : o ∈ seen
    · rw [show uniqueOwnersAux seen (o :: os) = uniqueOwnersAux seen os by
        simp [uniqueOwnersAux, ho]]
      refine ⟨(ih seen).1, fun x hx => ?_⟩
      exact ⟨List.mem_cons_of_mem o ((ih seen).2 x hx).1, ((ih seen).2 x hx).2⟩
    · rw [show uniqueOwnersAux seen (o :: os) = o :: uniqueOwnersAux (o :: seen) os by
        simp [uniqueOwnersAux, ho]]
      have htail := ih (o :: seen)
      constructor
      · refine List.nodup_cons.mpr ⟨fun hmem => ?_, htail.1⟩
        exact (htail.2 o hmem).2 (List.mem_cons_self o seen)
      · intro x hx
        rcases List.mem_cons.mp hx with rfl | hx'
        · exact ⟨List.mem_cons_self x os, ho⟩
        · refine ⟨List.mem_cons_of_mem o (htail.2 x hx').1, fun hmem => ?_⟩
          exact (htail.2 x hx').2 (List.mem_cons_of_mem o hmem)

/-- The last-occurrence index is below the list length. -/
theorem lastIdx?_lt_length {t : String} :
    ∀ {l : List String} {j : Nat}, lastIdx? l t = some j → j < l.length := by
  intro l
  induction l with
  | nil => intro j h; exact absurd h (by simp [lastIdx?])
  | cons x xs ih =>
    intro j h
    rw [lastIdx?] at h
    cases hx : lastIdx? xs t with
    | some k =>
      rw [hx] at h
      have := ih hx
      simp only [Option.some.injEq] at h
      simp only [List.length_cons]
      omega
    | none =>
      rw [hx] at h
      by_cases hxt : x = t
      · rw [if_pos hxt] at h
        simp only [Option.some.injEq] at h
        simp only [List.length_cons]
        omega
      · rw [if_neg hxt] at h
        exact absurd h (by simp)

/-- The routing sort key never exceeds the order's length. -/
theorem routeSortKey_le_length (order : List String) (t : String) :
    routeSortKey order t ≤ order.length := by
  rw [routeSortKey_eq_specLastKey]
  unfold specLastKey
  cases h : lastIdx? order t with
  | none => simp
  | some j => simpa using Nat.le_of_lt (lastIdx?_lt_length h)

/-! ## Concrete fixtures -/

/-- The built-in default configuration (all `RulesConfig` defaults). -/
def defaultConfig : RulesConfig := {}

/-- The built-in default thresholds. -/
def defaultThresholds : ThresholdConfig := {}

/-- Synthetic evaluation: a fired Compliance-owned trigger (an owner not in
the default escalation order) followed by a fired Finance-owned trigger. -/
def evCompliance : EvaluationResult :=
  { deal_id := "d-compliance"
    triggers := [{ rule_id := "SYNTH_RULE", triggered := true, owner := "Compliance",
                   reason := "synthetic", weight := 1 },
                 { rule_id := "DISCOUNT_THRESHOLD", triggered := true, owner := "Finance",
                   reason := "Discount exceeds threshold", weight := 2 }]
    total_weight := 3
    priority := "P2" }

/-- Evaluation with two fired Finance-owned triggers. -/
def evTwoFinance : EvaluationResult :=
  { deal_id := "d-two-finance"
    triggers := [{ rule_id := "DISCOUNT_THRESHOLD", triggered := true, owner := "Finance",
                   reason := "Discount exceeds threshold", weight := 2 },
                 { rule_id := "PAYMENT_TERMS_LIMIT", triggered := true, owner := "Finance",
                   reason := "Payment terms exceed limit", weight := 1 }]
    total_weight := 3
    priority := "P2" }

/-- Configuration whose escalation order lists Finance twice. -/
def dupOrderConfig : RulesConfig := { escalation_order := ["Finance", "Exec", "Finance"] }

/-- Evaluation with a fired Finance-owned and then a fired Exec-owned trigger. -/
def evFinanceExec : EvaluationResult :=
  { deal_id := "d-finance-exec"
    triggers := [{ rule_id := "DISCOUNT_THRESHOLD", triggered := true, owner := "Finance",
                   reason := "Discount exceeds threshold", weight := 2 },
                 { rule_id := "ACV_EXEC_THRESHOLD", triggered := true, owner := "Exec",
                   reason := "ACV exceeds threshold", weight := 3 }]
    total_weight := 5
    priority := "P1" }

/-! ## Claim C1 -/

/-- C1 (amended): for every evaluation with at least one fired trigger and
every config, `route_deal` returns as `escalation_path` the owners of the
fired triggers, deduplicated preserving first-occurrence order, then
stably sorted by the index of each owner's last occurrence in
`config.escalation_order` (owners absent from the order are keyed at the
order's length, hence placed after all known owners while keeping their
relative first-occurrence order); when no name repeats in
`escalation_order` the last-occurrence index is the owner's index, i.e.
the claim as stated.  In particular a fired Compliance-owned trigger
together with a fired Finance-owned one yields
`["Finance", "Compliance"]`, and two Finance-owned fired triggers
contribute "Finance" exactly once. -/
theorem route_deal_escalation_path_stable_sort (ev : EvaluationResult) (cfg : RulesConfig)
    (h : ∃ t ∈ ev.triggers, t.triggered = true) :
    ((route_deal ev cfg).escalation_path
        = stableSortByKey (specLastKey cfg.escalation_order) cfg.escalation_order.length
            (firstOccurrenceDedup
              ((ev.triggers.filter (fun t => t.triggered)).map (fun t => t.owner))))
      ∧ (route_deal evCompliance defaultConfig).escalation_path = ["Finance", "Compliance"]
      ∧ (route_deal evTwoFinance defaultConfig).escalation_path = ["Finance"] := by
  refine ⟨?_, by decide, by decide⟩
  have hne : (ev.triggers.filter (fun t => t.triggered)).isEmpty = false := by
    rcases h with ⟨t, ht, htr⟩
    cases he : (ev.triggers.filter (fun t => t.triggered)).isEmpty
    · rfl
    · have hmem : t ∈ ev.triggers.filter (fun t => t.triggered) :=
        List.mem_filter.mpr ⟨ht, htr⟩
      rw [List.isEmpty_iff.mp he] at hmem
      exact absurd hmem (List.not_mem_nil t)
  simp only [route_deal, hne, Bool.false_eq_true, if_false]
  rw [uniqueOwners_eq_dedup]
  have hkey : routeSortKey cfg.escalation_order = specLastKey cfg.escalation_order :=
    funext (fun t => routeSortKey_eq_specLastKey cfg.escalation_order t)
  rw [show pySorted (routeSortKey cfg.escalation_order) = pySorted (specLastKey cfg.escalation_order) from hkey ▸ rfl]
  exact pySorted_eq_stableSortByKey
    (fun y _ => by rw [← routeSortKey_eq_specLastKey]; exact routeSortKey_le_length _ _)

/-- Witness for C1 at the Compliance + Finance example. -/
theorem route_deal_escalation_path_stable_sort_witness :
    (route_deal evCompliance defaultConfig).escalation_path
      = stableSortByKey (specLastKey defaultConfig.escalation_order)
          defaultConfig.escalation_order.length
          (firstOccurrenceDedup
            ((evCompliance.triggers.filter (fun t => t.triggered)).map (fun t => t.owner))) :=
  (route_deal_escalation_path_stable_sort evCompliance defaultConfig (by decide)).1

/-- Counterexample to C1 as stated: with `escalation_order`
`["Finance", "Exec", "Finance"]` and fired triggers owned by Finance then
Exec, the code sorts by the enumerate-built dict (last occurrence wins:
Finance gets key 2) and returns `["Exec", "Finance"]`, while sorting by
each owner's index (first occurrence, Finance gets key 0) as the claim
states would give `["Finance", "Exec"]`. -/
theorem route_deal_escalation_path_first_index_counterexample :
    ¬ ((route_deal evFinanceExec dupOrderConfig).escalation_path
        = stableSortByKey (specFirstKey dupOrderConfig.escalation_order)
            dupOrderConfig.escalation_order.length
            (firstOccurrenceDedup
              ((evFinanceExec.triggers.filter (fun t => t.triggered)).map (fun t => t.owner)))) := by
  intro hEq
  have hL : (route_deal evFinanceExec dupOrderConfig).escalation_path = ["Exec", "Finance"] := by
    decide
  have hR : stableSortByKey (specFirstKey dupOrderConfig.escalation_order)
      dupOrderConfig.escalation_order.length
      (firstOccurrenceDedup
        ((evFinanceExec.triggers.filter (fun t => t.triggered)).map (fun t => t.owner)))
      = ["Finance", "Exec"] := by
    simp [stableSortByKey, bucketsOn, firstOccurrenceDedup, specFirstKey, firstIdx?,
          dupOrderConfig, evFinanceExec]
  rw [hL, hR] at hEq
  exact absurd hEq (by decide)

/-! ## Claim C2 -/

/-- Deal sitting exactly on all three numeric thresholds of the default
configuration. -/
def boundaryDeal : ValidatedDeal :=
  { id := "deal-boundary"
    created_at := "2026-01-01T00:00:00Z"
    deal_type := .New
    customer_segment := .SMB
    annual_contract_value := 150000
    discount_percentage := 20
    payment_terms_days := 45
    region := .NA
    custom_security_clause := false
    clause_text := none }

/-- C2: the discount, ACV and payment-terms rules trigger exactly on the
strict inequality against the resolved threshold; equality does not
trigger. -/
theorem rule_predicates_strict (deal : ValidatedDeal) (th : ThresholdConfig) (w : Int) :
    ((_eval_discount deal th w).triggered = true
        ↔ th.discount_threshold < deal.discount_percentage)
    ∧ ((_eval_acv deal th w).triggered = true
        ↔ th.acv_exec_threshold < deal.annual_contract_value)
    ∧ ((_eval_payment_terms deal th w).triggered = true
        ↔ th.payment_terms_limit < deal.payment_terms_days)
    ∧ (deal.discount_percentage = th.discount_threshold
        → (_eval_discount deal th w).triggered = false)
    ∧ (deal.annual_contract_value = th.acv_exec_threshold
        → (_eval_acv deal th w).triggered = false)
    ∧ (deal.payment_terms_days = th.payment_terms_limit
        → (_eval_payment_terms deal th w).triggered = false) := by
  refine ⟨by simp [_eval_discount], by simp [_eval_acv], by simp [_eval_payment_terms],
    ?_, ?_, ?_⟩
  · intro he
    simp [_eval_discount, he]
  · intro he
    simp [_eval_acv, he]
  · intro he
    simp [_eval_payment_terms, he]

/-- Witness for C2: with the default thresholds, a deal at discount 20,
ACV 150000 and payment terms 45 triggers none of the three rules. -/
theorem rule_predicates_strict_witness :
    (_eval_discount boundaryDeal defaultThresholds 2).triggered = false
    ∧ (_eval_acv boundaryDeal defaultThresholds 3).triggered = false
    ∧ (_eval_payment_terms boundaryDeal defaultThresholds 1).triggered = false :=
  ⟨(rule_predicates_strict boundaryDeal defaultThresholds 2).2.2.2.1 (by decide),
   (rule_predicates_strict boundaryDeal defaultThresholds 3).2.2.2.2.1 (by decide),
   (rule_predicates_strict boundaryDeal defaultThresholds 1).2.2.2.2.2 (by decide)⟩

/-! ## Claim C3 -/

/-- C3: the priority tier is the descending cascade over the cutoffs, and
the default cutoffs give the claimed tiers at 0, 1, 2, 3 and 5. -/
theorem compute_priority_cascade (w : Int) (cfg : RulesConfig) :
    (_compute_priority w cfg = "P1" ↔ cfg.priority_cutoffs.P1 ≤ w)
    ∧ (_compute_priority w cfg = "P2"
        ↔ (w < cfg.priority_cutoffs.P1 ∧ cfg.priority_cutoffs.P2 ≤ w))
    ∧ (_compute_priority w cfg = "P3"
        ↔ (w < cfg.priority_cutoffs.P1 ∧ w < cfg.priority_cutoffs.P2
            ∧ cfg.priority_cutoffs.P3 ≤ w))
    ∧ (_compute_priority w cfg = "None"
        ↔ (w < cfg.priority_cutoffs.P1 ∧ w < cfg.priority_cutoffs.P2
            ∧ w < cfg.priority_cutoffs.P3))
    ∧ _compute_priority 0 defaultConfig = "None"
    ∧ _compute_priority 1 defaultConfig = "P3"
    ∧ _compute_priority 2 defaultConfig = "P3"
    ∧ _compute_priority 3 defaultConfig = "P2"
    ∧ _compute_priority 5 defaultConfig = "P1" := by
  refine ⟨?_, ?_, ?_, ?_, by decide, by decide, by decide, by decide, by decide⟩ <;>
    · unfold _compute_priority
      split_ifs with h1 h2 h3 <;> simp_all

/-- Witness for C3 at total weight 4 with the default cutoffs. -/
theorem compute_priority_cascade_witness :
    _compute_priority 4 defaultConfig = "P2" :=
  (compute_priority_cascade 4 defaultConfig).2.1.mpr (by decide)

/-! ## Claim C4 -/

/-- Deal triggering all five rules under the default configuration. -/
def allTriggerDeal : ValidatedDeal :=
  { id := "deal-all"
    created_at := "2026-01-01T00:00:00Z"
    deal_type := .New
    customer_segment := .SMB
    annual_contract_value := 200000
    discount_percentage := 30
    payment_terms_days := 60
    region := .EU
    custom_security_clause := true
    clause_text := none }

/-- C4: evaluate_deal produces five triggers, each carrying the configured
weight looked up by its rule id when triggered and 0 otherwise, and
total_weight is the sum of the five trigger weights. -/
theorem evaluate_deal_weights (deal : ValidatedDeal) (cfg : RulesConfig) :
    (∀ t ∈ (evaluate_deal deal cfg).triggers,
        t.weight = if t.triggered = true then weightFor cfg t.rule_id else 0)
    ∧ (evaluate_deal deal cfg).triggers.length = 5
    ∧ (evaluate_deal deal cfg).total_weight
        = ((evaluate_deal deal cfg).triggers.map (fun t => t.weight)).sum := by
  refine ⟨?_, rfl, rfl⟩
  intro t ht
  simp only [evaluate_deal, List.mem_cons, List.not_mem_nil, or_false] at ht
  rcases ht with rfl | rfl | rfl | rfl | rfl <;>
    simp [_eval_discount, _eval_acv, _eval_eu_legal, _eval_payment_terms,
      _eval_security_clause, weightFor]

/-- Witness for C4 at the all-triggering deal and default configuration. -/
theorem evaluate_deal_weights_witness :
    (evaluate_deal allTriggerDeal defaultConfig).total_weight
      = ((evaluate_deal allTriggerDeal defaultConfig).triggers.map (fun t => t.weight)).sum :=
  (evaluate_deal_weights allTriggerDeal defaultConfig).2.2

/-! ## Claim C5 -/

/-- Configuration with an Enterprise override raising only the discount
threshold to 25. -/
def overrideConfig : RulesConfig :=
  { segment_overrides := [("Enterprise", { discount_threshold := some 25 })] }

/-- Enterprise deal at a 22 percent discount. -/
def enterpriseDeal : ValidatedDeal :=
  { id := "deal-ent"
    created_at := "2026-01-01T00:00:00Z"
    deal_type := .Renewal
    customer_segment := .Enterprise
    annual_contract_value := 100000
    discount_percentage := 22
    payment_terms_days := 30
    region := .NA
    custom_security_clause := false
    clause_text := none }

/-- The identical deal in the Mid-Market segment. -/
def midMarketDeal : ValidatedDeal :=
  { enterpriseDeal with id := "deal-mm", customer_segment := .MidMarket }

/-- C5: resolve_thresholds returns the defaults unchanged for a segment
without an override, and otherwise replaces exactly the explicitly-set
override fields, the unset ones falling back to the defaults; with the
Enterprise discount override at 25, the Enterprise deal at discount 22
does not trigger DISCOUNT_THRESHOLD while the identical Mid-Market deal
does. -/
theorem resolve_thresholds_merge (cfg : RulesConfig) (seg : String) :
    (List.lookup seg cfg.segment_overrides = none → cfg.resolve_thresholds seg = cfg.defaults)
    ∧ (∀ ov : ThresholdOverride, List.lookup seg cfg.segment_overrides = some ov →
        (cfg.resolve_thresholds seg).discount_threshold
            = ov.discount_threshold.getD cfg.defaults.discount_threshold
        ∧ (cfg.resolve_thresholds seg).acv_exec_threshold
            = ov.acv_exec_threshold.getD cfg.defaults.acv_exec_threshold
        ∧ (cfg.resolve_thresholds seg).payment_terms_limit
            = ov.payment_terms_limit.getD cfg.defaults.payment_terms_limit
        ∧ (cfg.resolve_thresholds seg).eu_requires_legal
            = ov.eu_requires_legal.getD cfg.defaults.eu_requires_legal)
    ∧ ((evaluate_deal enterpriseDeal overrideConfig).triggers.head?.map
          (fun t => (t.rule_id, t.triggered)) = some ("DISCOUNT_THRESHOLD", false))
    ∧ ((evaluate_deal midMarketDeal overrideConfig).triggers.head?.map
          (fun t => (t.rule_id, t.triggered)) = some ("DISCOUNT_THRESHOLD", true)) := by
  refine ⟨?_, ?_, by decide, by decide⟩
  · intro h
    simp [RulesConfig.resolve_thresholds, h]
  · intro ov h
    simp [RulesConfig.resolve_thresholds, h]

/-- Witness for C5 at the Enterprise override configuration. -/
theorem resolve_thresholds_merge_witness :
    overrideConfig.resolve_thresholds "SMB" = overrideConfig.defaults
    ∧ (overrideConfig.resolve_thresholds "Enterprise").discount_threshold = 25
    ∧ (overrideConfig.resolve_thresholds "Enterprise").payment_terms_limit = 45 := by
  refine ⟨(resolve_thresholds_merge overrideConfig "SMB").1 (by decide), ?_, ?_⟩
  · have h := ((resolve_thresholds_merge overrideConfig "Enterprise").2.1
      { discount_threshold := some 25 } (by decide)).1
    simpa using h
  · have h := ((resolve_thresholds_merge overrideConfig "Enterprise").2.1
      { discount_threshold := some 25 } (by decide)).2.2.1
    simpa using h

/-! ## Claim C6 -/

/-- The routing decision auto-approves exactly when the fired-trigger list
is empty. -/
theorem route_deal_auto_approved (ev : EvaluationResult) (cfg : RulesConfig) :
    (route_deal ev cfg).auto_approved = (ev.triggers.filter (fun t => t.triggered)).isEmpty := by
  cases h : (ev.triggers.filter (fun t => t.triggered)).isEmpty <;> simp [route_deal, h]

/-- Disabling no rules keeps the trigger list unchanged. -/
theorem zeroDisabled_nil_triggers (ev : EvaluationResult) (cfg : RulesConfig) :
    (zeroDisabled ev cfg []).triggers = ev.triggers := by
  simp [zeroDisabled]

/-- A fired trigger of the corrected evaluation is a fired trigger of the
original evaluation whose rule is not disabled. -/
theorem mem_fired_zeroDisabled {ev : EvaluationResult} {cfg : RulesConfig}
    {disabled : List String} {t : RuleTrigger}
    (ht : t ∈ (zeroDisabled ev cfg disabled).triggers) (htr : t.triggered = true) :
    t ∈ ev.triggers ∧ t.rule_id ∉ disabled := by
  simp only [zeroDisabled, List.mem_map] at ht
  rcases ht with ⟨s, hs, heq⟩
  by_cases hsd : s.rule_id ∈ disabled
  · rw [if_pos hsd] at heq
    subst heq
    simp at htr
  · rw [if_neg hsd] at heq
    subst heq
    exact ⟨hs, hsd⟩

/-- C6: in the simulated pass every disabled trigger ends up unfired with
weight 0, total_weight is recomputed as the sum of the remaining weights,
priority is recomputed from that total with the simulated config's
cutoffs, a deal all of whose fired rules are disabled auto-approves, and
the simulated escalated count never exceeds the count with no disabled
rules. -/
theorem simulation_disable_rules (deal : ValidatedDeal) (cfg : RulesConfig)
    (disabled : List String) :
    (∀ t ∈ (zeroDisabled (evaluate_deal deal cfg) cfg disabled).triggers,
        t.rule_id ∈ disabled → t.triggered = false ∧ t.weight = 0)
    ∧ (zeroDisabled (evaluate_deal deal cfg) cfg disabled).total_weight
        = ((zeroDisabled (evaluate_deal deal cfg) cfg disabled).triggers.map
            (fun t => t.weight)).sum
    ∧ (zeroDisabled (evaluate_deal deal cfg) cfg disabled).priority
        = _compute_priority (zeroDisabled (evaluate_deal deal cfg) cfg disabled).total_weight cfg
    ∧ ((∀ t ∈ (evaluate_deal deal cfg).triggers, t.triggered = true → t.rule_id ∈ disabled) →
        (simDecision deal cfg disabled).auto_approved = true)
    ∧ (∀ deals : List ValidatedDeal,
        simEscalatedCount deals cfg disabled ≤ simEscalatedCount deals cfg []) := by
  refine ⟨?_, rfl, rfl, ?_, ?_⟩
  · intro t ht hd
    simp only [zeroDisabled, List.mem_map] at ht
    rcases ht with ⟨s, hs, heq⟩
    by_cases hsd : s.rule_id ∈ disabled
    · rw [if_pos hsd] at heq
      subst heq
      exact ⟨rfl, rfl⟩
    · rw [if_neg hsd] at heq
      subst heq
      exact absurd hd hsd
  · intro hall
    rw [simDecision, route_deal_auto_approved, List.isEmpty_iff]
    refine List.filter_eq_nil_iff.mpr ?_
    intro t ht htr
    have hmem := mem_fired_zeroDisabled ht htr
    exact hmem.2 (hall t hmem.1 htr)
  · intro deals
    apply List.countP_mono_left
    intro d _ hp
    simp only [Bool.not_eq_true'] at hp ⊢
    rw [simDecision, route_deal_auto_approved] at hp ⊢
    rw [zeroDisabled_nil_triggers]
    cases hze : ((zeroDisabled (evaluate_deal d cfg) cfg disabled).triggers.filter
        (fun t => t.triggered)) with
    | nil => rw [hze] at hp; simp at hp
    | cons t rest =>
      have htmem : t ∈ (zeroDisabled (evaluate_deal d cfg) cfg disabled).triggers.filter
          (fun t => t.triggered) := by rw [hze]; exact List.mem_cons_self t rest
      have ht' := List.mem_filter.mp htmem
      have hmem := mem_fired_zeroDisabled ht'.1 ht'.2
      have htin : t ∈ (evaluate_deal d cfg).triggers.filter (fun t => t.triggered) :=
        List.mem_filter.mpr ⟨hmem.1, ht'.2⟩
      cases hfe : ((evaluate_deal d cfg).triggers.filter (fun t => t.triggered)) with
      | nil => rw [hfe] at htin; exact absurd htin (List.not_mem_nil t)
      | cons u us => rfl

/-- Deal that triggers only the discount rule under the default
configuration. -/
def discountOnlyDeal : ValidatedDeal :=
  { id := "deal-disc"
    created_at := "2026-01-01T00:00:00Z"
    deal_type := .New
    customer_segment := .SMB
    annual_contract_value := 100000
    discount_percentage := 30
    payment_terms_days := 30
    region := .NA
    custom_security_clause := false
    clause_text := none }

/-- Witness for C6: disabling DISCOUNT_THRESHOLD flips the discount-only
deal to auto-approved in the simulated pass. -/
theorem simulation_disable_rules_witness :
    (simDecision discountOnlyDeal defaultConfig ["DISCOUNT_THRESHOLD"]).auto_approved = true :=
  (simulation_disable_rules discountOnlyDeal defaultConfig ["DISCOUNT_THRESHOLD"]).2.2.2.1
    (by decide)

/-! ## Claim C7 -/

/-- C7: route_deal auto-approves with empty escalation path exactly when
no trigger fired, escalates when one did, and passes rule_triggers,
priority and total_weight through unchanged. -/
theorem route_deal_status (ev : EvaluationResult) (cfg : RulesConfig) :
    (((route_deal ev cfg).auto_approved = true
        ∧ (route_deal ev cfg).approval_status = "Auto-Approved"
        ∧ (route_deal ev cfg).escalation_path = [])
      ↔ ∀ t ∈ ev.triggers, t.triggered = false)
    ∧ ((∃ t ∈ ev.triggers, t.triggered = true) →
        (route_deal ev cfg).auto_approved = false
        ∧ (route_deal ev cfg).approval_status = "Escalated")
    ∧ (route_deal ev cfg).rule_triggers = ev.triggers
    ∧ (route_deal ev cfg).priority = ev.priority
    ∧ (route_deal ev cfg).total_weight = ev.total_weight := by
  cases hfe : (ev.triggers.filter (fun t => t.triggered)) with
  | nil =>
    have hf : (ev.triggers.filter (fun t => t.triggered)).isEmpty = true := by rw [hfe]; rfl
    have hall : ∀ t ∈ ev.triggers, t.triggered = false := by
      intro t ht
      have hnt := List.filter_eq_nil_iff.mp hfe t ht
      cases htr : t.triggered
      · rfl
      · exact absurd htr hnt
    refine ⟨⟨fun _ => hall, fun _ => by simp [route_deal, hf]⟩, ?_,
      by simp [route_deal, hf], by simp [route_deal, hf], by simp [route_deal, hf]⟩
    rintro ⟨t, ht, htr⟩
    rw [hall t ht] at htr
    exact absurd htr (by simp)
  | cons t0 rest =>
    have hf : (ev.triggers.filter (fun t => t.triggered)).isEmpty = false := by rw [hfe]; rfl
    have ht0 : t0 ∈ ev.triggers.filter (fun t => t.triggered) := by
      rw [hfe]; exact List.mem_cons_self t0 rest
    have ht0' := List.mem_filter.mp ht0
    refine ⟨?_, fun _ => by simp [route_deal, hf],
      by simp [route_deal, hf], by simp [route_deal, hf], by simp [route_deal, hf]⟩
    constructor
    · intro hcon
      exfalso
      have hfalse : (route_deal ev cfg).auto_approved = false := by simp [route_deal, hf]
      rw [hcon.1] at hfalse
      exact absurd hfalse (by simp)
    · intro hall
      exfalso
      have hzero := hall t0 ht0'.1
      have h2 := ht0'.2
      rw [hzero] at h2
      exact absurd h2 (by simp)

/-- Witness for C7 at the Compliance + Finance evaluation. -/
theorem route_deal_status_witness :
    (route_deal evCompliance defaultConfig).auto_approved = false
    ∧ (route_deal evCompliance defaultConfig).approval_status = "Escalated" :=
  (route_deal_status evCompliance defaultConfig).2.1 (by decide)

/-! ## Claim C8 -/

/-- C8: two runs of evaluate_deal on the same deal and config agree, and
two runs of route_deal on the same evaluation and config agree.  The
embedding is purely functional, so the source's no-mutation guarantee is
inherent: neither call can alter its inputs. -/
theorem evaluate_route_deterministic (deal : ValidatedDeal) (cfg : RulesConfig)
    (ev : EvaluationResult) (r1 r2 : EvaluationResult) (d1 d2 : RoutingDecision)
    (h1 : r1 = evaluate_deal deal cfg) (h2 : r2 = evaluate_deal deal cfg)
    (h3 : d1 = route_deal ev cfg) (h4 : d2 = route_deal ev cfg) :
    r1 = r2 ∧ d1 = d2 :=
  ⟨h1.trans h2.symm, h3.trans h4.symm⟩

/-- Witness for C8 at the boundary deal and the Compliance evaluation. -/
theorem evaluate_route_deterministic_witness :
    evaluate_deal boundaryDeal defaultConfig = evaluate_deal boundaryDeal defaultConfig
    ∧ route_deal evCompliance defaultConfig = route_deal evCompliance defaultConfig :=
  evaluate_route_deterministic boundaryDeal defaultConfig evCompliance
    (evaluate_deal boundaryDeal defaultConfig) (evaluate_deal boundaryDeal defaultConfig)
    (route_deal evCompliance defaultConfig) (route_deal evCompliance defaultConfig)
    rfl rfl rfl rfl

/-! ## Claim C9 -/

/-- C9: two deals identical except for clause_text produce routing
decisions with the same approval_status, escalation_path and priority;
no rule predicate, weight or routing output reads clause_text. -/
theorem clause_text_noninterference (d1 d2 : ValidatedDeal) (cfg : RulesConfig)
    (hid : d1.id = d2.id)
    (hcr : d1.created_at = d2.created_at)
    (hdt : d1.deal_type = d2.deal_type)
    (hcs : d1.customer_segment = d2.customer_segment)
    (hacv : d1.annual_contract_value = d2.annual_contract_value)
    (hdp : d1.discount_percentage = d2.discount_percentage)
    (hpt : d1.payment_terms_days = d2.payment_terms_days)
    (hr : d1.region = d2.region)
    (hsc : d1.custom_security_clause = d2.custom_security_clause) :
    (route_deal (evaluate_deal d1 cfg) cfg).approval_status
        = (route_deal (evaluate_deal d2 cfg) cfg).approval_status
    ∧ (route_deal (evaluate_deal d1 cfg) cfg).escalation_path
        = (route_deal (evaluate_deal d2 cfg) cfg).escalation_path
    ∧ (route_deal (evaluate_deal d1 cfg) cfg).priority
        = (route_deal (evaluate_deal d2 cfg) cfg).priority := by
  cases d1
  cases d2
  simp only at hid hcr hdt hcs hacv hdp hpt hr hsc
  subst hid hcr hdt hcs hacv hdp hpt hr hsc
  exact ⟨rfl, rfl, rfl⟩

/-- Deal submitted with an advisory clause text. -/
def clauseDeal : ValidatedDeal :=
  { discountOnlyDeal with clause_text := some "Vendor shall indemnify the customer." }

/-- Witness for C9: the discount-only deal with and without clause text
routes identically. -/
theorem clause_text_noninterference_witness :
    (route_deal (evaluate_deal clauseDeal defaultConfig) defaultConfig).approval_status
        = (route_deal (evaluate_deal discountOnlyDeal defaultConfig) defaultConfig).approval_status
    ∧ (route_deal (evaluate_deal clauseDeal defaultConfig) defaultConfig).escalation_path
        = (route_deal (evaluate_deal discountOnlyDeal defaultConfig) defaultConfig).escalation_path
    ∧ (route_deal (evaluate_deal clauseDeal defaultConfig) defaultConfig).priority
        = (route_deal (evaluate_deal discountOnlyDeal defaultConfig) defaultConfig).priority :=
  clause_text_noninterference clauseDeal discountOnlyDeal defaultConfig
    rfl rfl rfl rfl rfl rfl rfl rfl rfl

/-! ## Claim C10 -/

/-- Every trigger produced by evaluate_deal is owned by one of the four
hard-coded teams. -/
theorem evaluate_deal_owner_mem (deal : ValidatedDeal) (cfg : RulesConfig) :
    ∀ t ∈ (evaluate_deal deal cfg).triggers,
      t.owner ∈ ["Finance", "Exec", "Legal", "Security"] := by
  intro t ht
  simp only [evaluate_deal, List.mem_cons, List.not_mem_nil, or_false] at ht
  rcases ht with rfl | rfl | rfl | rfl | rfl <;>
    simp [_eval_discount, _eval_acv, _eval_eu_legal, _eval_payment_terms, _eval_security_clause]

/-- C10: through the real evaluate-then-route pipeline the escalation path
is duplicate-free and draws only on the four hard-coded owners, so the
unknown-owner branch of the routing sort is unreachable there. -/
theorem escalation_path_owner_set (deal : ValidatedDeal) (cfg : RulesConfig) :
    (route_deal (evaluate_deal deal cfg) cfg).escalation_path.Nodup
    ∧ ∀ o ∈ (route_deal (evaluate_deal deal cfg) cfg).escalation_path,
        o ∈ ["Finance", "Exec", "Legal", "Security"] := by
  cases hf : ((evaluate_deal deal cfg).triggers.filter (fun t => t.triggered)).isEmpty
  · have hpath : (route_deal (evaluate_deal deal cfg) cfg).escalation_path
        = pySorted (routeSortKey cfg.escalation_order)
            (uniqueOwnersAux []
              (((evaluate_deal deal cfg).triggers.filter (fun t => t.triggered)).map
                (fun t => t.owner))) := by
      simp [route_deal, hf]
    have hperm := List.perm_insertionSort
      (fun a b => routeSortKey cfg.escalation_order a ≤ routeSortKey cfg.escalation_order b)
      (uniqueOwnersAux []
        (((evaluate_deal deal cfg).triggers.filter (fun t => t.triggered)).map
          (fun t => t.owner)))
    have haux := uniqueOwnersAux_nodup_mem
      (((evaluate_deal deal cfg).triggers.filter (fun t => t.triggered)).map
        (fun t => t.owner)) []
    constructor
    · rw [hpath]
      exact hperm.nodup_iff.mpr haux.1
    · intro o ho
      rw [hpath] at ho
      have ho' := (haux.2 o (hperm.mem_iff.mp ho)).1
      rcases List.mem_map.mp ho' with ⟨t, htmem, rfl⟩
      exact evaluate_deal_owner_mem deal cfg t (List.mem_filter.mp htmem).1
  · have hpath : (route_deal (evaluate_deal deal cfg) cfg).escalation_path = [] := by
      simp [route_deal, hf]
    rw [hpath]
    exact ⟨List.nodup_nil, by intro o ho; exact absurd ho (List.not_mem_nil o)⟩

/-- Witness for C10 at the all-triggering deal. -/
theorem escalation_path_owner_set_witness :
    (route_deal (evaluate_deal allTriggerDeal defaultConfig) defaultConfig).escalation_path.Nodup :=
  (escalation_path_owner_set allTriggerDeal defaultConfig).1
